import Mathlib

/-!
Shallow embedding of the Philippines founders scraper (`scraper.py`).

The embedding works over `List Char` for the string-processing helpers so that
the Python regular-expression operations used by the source can be modelled by
explicit, executable character-level matchers.  Whitespace, case folding and
character classes are modelled at ASCII scope, matching the ASCII regex classes
(`\s`, `\d`, `[a-zA-Z]`) the source uses on this data.
-/

namespace PhScraper

/-- ASCII model of Python whitespace (the characters matched by `\s` and
stripped by `str.strip()`). -/
def pyIsSpace (c : Char) : Bool :=
  c = ' ' || c = '\t' || c = '\n' || c = '\r' || c = '\x0b' || c = '\x0c'

/-- Model of Python `str.lstrip()`. -/
def pyStripL (l : List Char) : List Char := l.dropWhile pyIsSpace

/-- Model of Python `str.rstrip()`. -/
def pyStripR (l : List Char) : List Char := (l.reverse.dropWhile pyIsSpace).reverse

/-- Model of Python `str.strip()`. -/
def pyStrip (l : List Char) : List Char := pyStripR (pyStripL l)

/-- Worker for `collapseWs`; the flag records whether we are inside a
whitespace run (for which a single space has already been emitted). -/
def collapseWsAux : Bool → List Char → List Char
  | _, [] => []
  | inRun, c :: cs =>
    if pyIsSpace c then
      if inRun then collapseWsAux true cs else ' ' :: collapseWsAux true cs
    else c :: collapseWsAux false cs

/-- Model of `re.sub(r"\s+", " ", s)`: every maximal whitespace run becomes a
single space. -/
def collapseWs (l : List Char) : List Char := collapseWsAux false l

/-- ASCII model of Python `str.lower()`. -/
def lowerL (l : List Char) : List Char := l.map Char.toLower

/-- Model of the Python `in` operator on strings: does `pat` occur as a
contiguous subsequence of `l`? -/
def containsSeq (pat : List Char) : List Char → Bool
  | [] => decide (pat = [])
  | c :: cs => pat.isPrefixOf (c :: cs) || containsSeq pat cs

/-- Maximal runs of characters satisfying `p`, in order; the characters not
satisfying `p` are dropped.  `splitRunsAux p cur l` carries the current
(reversed) pending run.  This models both `re.findall(r"\d+", s)` (with
`p := Char.isDigit`) and Python `str.split()` (with `p := fun c => !pyIsSpace c`). -/
def splitRunsAux (p : Char → Bool) : List Char → List Char → List (List Char)
  | cur, [] => if cur = [] then [] else [cur.reverse]
  | cur, c :: cs =>
    if p c then splitRunsAux p (c :: cur) cs
    else if cur = [] then splitRunsAux p [] cs
    else cur.reverse :: splitRunsAux p [] cs

def splitRuns (p : Char → Bool) (l : List Char) : List (List Char) :=
  splitRunsAux p [] l

/-- Model of Python `str.split()` with no arguments: maximal non-whitespace runs. -/
def pySplit (l : List Char) : List (List Char) :=
  splitRuns (fun c => !pyIsSpace c) l

/-- Model of `" ".join(ws)`. -/
def joinSpace : List (List Char) → List Char
  | [] => []
  | [w] => w
  | w :: ws => w ++ ' ' :: joinSpace ws

/-- Model of Python `int` applied to a nonempty decimal digit string. -/
def natOfDigits (l : List Char) : Nat :=
  l.foldl (fun a c => 10 * a + (c.toNat - '0'.toNat)) 0

/-- The `bad_exact` deny list of `is_valid_name` (`scraper.py` lines 148-149). -/
def bad_exact : List (List Char) :=
  ["n/a", "none", "not available", "tba", "tbd",
   "admin", "administrator", "management", "staff", "team"].map String.data

/-- The `bad_prefix` deny list of `is_valid_name` (`scraper.py` line 152). -/
def badStart : List (List Char) :=
  ["closed", "temporarily", "permanently", "under construction"].map String.data

/-- Model of `is_valid_name` (`scraper.py` lines 136-161), on a character list. -/
def is_valid_nameL (cs : List Char) : Bool :=
  if cs.length < 2 then false
  else if cs.contains '@' then false
  else if containsSeq "http".data (lowerL cs) || containsSeq "www.".data (lowerL cs) then false
  else
    let lower := lowerL (pyStrip cs)
    if lower ∈ bad_exact then false
    else if badStart.any (fun b => b.isPrefixOf lower) then false
    else if (match cs with | c :: _ => c.isDigit | [] => false) then false
    else if (cs.filter Char.isAlpha).length < 2 then false
    else true

/-- `is_valid_name` on a `String`. -/
def is_valid_name (s : String) : Bool := is_valid_nameL s.data

/-- The honorific alternatives of the prefix regex
`^(Dr\.?|Engr\.?|Atty\.?|Mr\.?|Mrs\.?|Ms\.?)\s+` (IGNORECASE), in the
backtracking order the regex engine tries them (each alternative first with the
optional dot, then without). -/
def honorifics : List (List Char) :=
  ["dr.", "dr", "engr.", "engr", "atty.", "atty",
   "mr.", "mr", "mrs.", "mrs", "ms.", "ms"].map String.data

/-- Try to match one honorific alternative at the start: the literal
(case-insensitively), then at least one whitespace character; on success return
the input with the honorific and the following whitespace run removed (the
regex `\s+` is greedy, so the substitution removes the whole run). -/
def matchCand (p cs : List Char) : Option (List Char) :=
  if lowerL (cs.take p.length) = p then
    match cs.drop p.length with
    | r :: rs => if pyIsSpace r then some ((r :: rs).dropWhile pyIsSpace) else none
    | [] => none
  else none

def dropHonorificGo : List (List Char) → List Char → List Char
  | [], cs => cs
  | p :: ps, cs =>
    match matchCand p cs with
    | some rest => rest
    | none => dropHonorificGo ps cs

/-- Model of `re.sub(r"^(Dr\.?|Engr\.?|Atty\.?|Mr\.?|Mrs\.?|Ms\.?)\s+", "",
full_name, flags=re.IGNORECASE)` (`scraper.py` lines 168-169). -/
def dropHonorific (cs : List Char) : List Char := dropHonorificGo honorifics cs

/-- The generation-suffix alternatives of `(Jr\.?|Sr\.?|III|II|IV)`, in
backtracking order, lowercased for the IGNORECASE comparison. -/
def genSuffixes : List (List Char) :=
  ["jr.", "jr", "sr.", "sr", "iii", "ii", "iv"].map String.data

/-- Does `,?\s*(Jr\.?|Sr\.?|III|II|IV)$` (IGNORECASE) match the whole of `cs`?
The optional comma and the greedy `\s*` are deterministic here because no
suffix token starts with a comma or whitespace. -/
def sfxMatchHere (cs : List Char) : Bool :=
  let cs1 := match cs with | ',' :: r => r | _ => cs
  let cs2 := cs1.dropWhile pyIsSpace
  genSuffixes.any (fun t => lowerL cs2 = t)

def dropGenSuffixGo (done : List Char) : List Char → List Char
  | [] => done.reverse
  | c :: cs =>
    if sfxMatchHere (c :: cs) then done.reverse
    else dropGenSuffixGo (c :: done) cs

/-- Model of `re.sub(r",?\s*(Jr\.?|Sr\.?|III|II|IV)$", "", full_name,
flags=re.IGNORECASE)` (`scraper.py` line 171): remove the leftmost match that
extends to the end of the string. -/
def dropGenSuffix (cs : List Char) : List Char := dropGenSuffixGo [] cs

/-- The intermediate string of `parse_name` right before validation and
splitting (`scraper.py` lines 166-171): whitespace collapsed and stripped,
then the honorific removed and stripped, then the generation suffix removed
and stripped. -/
def parsedCore (s : String) : List Char :=
  pyStrip (dropGenSuffix (pyStrip (dropHonorific (pyStrip (collapseWs s.data)))))

/-- Model of `parse_name` (`scraper.py` lines 164-181). -/
def parse_name (s : String) : String × String :=
  if is_valid_nameL (parsedCore s) = false then ("", "")
  else
    match pySplit (parsedCore s) with
    | [] => ("", "")
    | [w] => (String.mk w, "")
    | w :: ws => (String.mk w, String.mk (joinSpace ws))

/-- The fixed literal set `VALID_EMPLOYEE_RANGES` (`scraper.py` lines 107-115);
membership in a Python `set` of strings is list membership here. -/
def VALID_EMPLOYEE_RANGES : List String :=
  ["1-10", "2-10", "5-10",
   "10-50", "11-50", "10-20", "11-20",
   "20-50", "21-50",
   "50-100", "51-100", "50-200", "51-200",
   "100-200", "101-200",
   "200-500", "201-500",
   "100-500", "101-500"]

/-- The normalisation `emp_text.strip().lower().replace(" ", "")` performed by
`employee_range_matches` (`scraper.py` line 186). -/
def employeeNormalize (s : String) : List Char :=
  (lowerL (pyStrip s.data)).filter (fun c => c ≠ ' ')

/-- Model of `employee_range_matches` (`scraper.py` lines 184-199): the
`numbers` found by `re.findall(r"\d+", ...)` on the normalised text decide
the branch. -/
def employee_range_matches (s : String) : Bool :=
  match (splitRuns Char.isDigit (employeeNormalize s)).map natOfDigits with
  | lo :: hi :: _ => decide (10 ≤ lo) && decide (hi ≤ 500)
  | [n] => decide (10 ≤ n) && decide (n ≤ 500)
  | [] => decide (String.mk (employeeNormalize s) ∈ VALID_EMPLOYEE_RANGES)

/-! ## Documents and the page fetcher -/

/-- The pieces of a BeautifulSoup-parsed detail/listing page that
`scraper.py` reads.  Each field is the result of the corresponding
BeautifulSoup query, which is external-library behaviour and hence part of the
document interface: `h1` is `soup.find("h1").get_text(strip=True)`,
`infoDivs` the `div.info` blocks of Method 1, `labelEls` the
`dt/th/strong/b/label` elements of Method 2 with their value elements,
`mailtoHref` the `href` of the first anchor whose `href` contains `mailto:`
case-insensitively, `rawHtml` is `str(soup)`, `pageText` is `soup.get_text()`,
and `links` the `href` values of all anchors with an `href` attribute. -/
structure InfoDiv where
  label : Option String
  text : String
deriving DecidableEq

structure LabelEl where
  label : String
  sibling : Option String
  next : Option String
deriving DecidableEq

structure Document where
  h1 : Option String
  infoDivs : List InfoDiv
  labelEls : List LabelEl
  mailtoHref : Option String
  rawHtml : String
  pageText : String
  links : List String
deriving DecidableEq

/-- One attempt's outcome as seen by `fetch_page`: either the HTTP request
raised a `requests.RequestException` at transport level, or a response with a
status code arrived whose body parses to the given document. -/
inductive Attempt where
  | transportError
  | response (code : Nat) (doc : Document)
deriving DecidableEq

/-- An attempt that `fetch_page` reacts to by sleeping and retrying:
a transport error, HTTP 429, or a status for which
`Response.raise_for_status` raises (4xx/5xx, i.e. `400 ≤ code < 600`) other
than 404 (which returns `None` before `raise_for_status` runs). -/
def retryable : Attempt → Prop
  | .transportError => True
  | .response c _ => c = 429 ∨ (400 ≤ c ∧ c < 600 ∧ c ≠ 404)

instance : DecidablePred retryable := fun a => by
  unfold retryable; cases a <;> infer_instance

/-- The retry loop of `fetch_page` (`scraper.py` lines 202-220).  `f n` is the
outcome of attempt `n` (0-based); `remaining` counts the attempts left out of
`range(4)`.  Returns the fetched document (or `none`) together with the list
of backoff waits `2 ** (attempt + 1)` slept before each retry. -/
def fetchLoop (f : Nat → Attempt) : Nat → Nat → Option Document × List Nat
  | _, 0 => (none, [])
  | attempt, remaining + 1 =>
    match f attempt with
    | .transportError =>
      let r := fetchLoop f (attempt + 1) remaining
      (r.1, 2 ^ (attempt + 1) :: r.2)
    | .response c doc =>
      if c = 429 then
        let r := fetchLoop f (attempt + 1) remaining
        (r.1, 2 ^ (attempt + 1) :: r.2)
      else if c = 404 then (none, [])
      else if 400 ≤ c ∧ c < 600 then
        let r := fetchLoop f (attempt + 1) remaining
        (r.1, 2 ^ (attempt + 1) :: r.2)
      else (some doc, [])

/-- Model of `fetch_page` (`scraper.py` lines 202-220). -/
def fetch_page (f : Nat → Attempt) : Option Document × List Nat :=
  fetchLoop f 0 4

/-- The backoff waits produced by `k` consecutive retried attempts starting at
attempt number `a`. -/
def backoffWaits : Nat → Nat → List Nat
  | _, 0 => []
  | a, k + 1 => 2 ^ (a + 1) :: backoffWaits (a + 1) k

/-! ## Extraction (scrape_company) -/

/-- Try to match the literal `lit` at the start of `cs` (case-sensitively);
on success return the rest. -/
def litHere (lit : List Char) (cs : List Char) : Option (List Char) :=
  if lit.isPrefixOf cs then some (cs.drop lit.length) else none

/-- Character class `[a-zA-Z.]` of the Method-3 name pattern. -/
def isNameChar (c : Char) : Bool := c.isAlpha || c = '.'

/-- Match `[A-Z]p+` at the start: an uppercase letter followed by one or more
`p`-characters (greedy); returns the matched word and the rest. -/
def matchWord (p : Char → Bool) : List Char → Option (List Char × List Char)
  | [] => none
  | c :: cs =>
    if c.isUpper then
      let tail := cs.takeWhile p
      if tail.isEmpty then none
      else some (c :: tail, cs.dropWhile p)
    else none

/-- Match up to `k` further repetitions of `\s+[A-Z]p+` (greedy), returning
the matched span (whitespace included) and the rest. -/
def matchMoreWords (p : Char → Bool) : Nat → List Char → List Char × List Char
  | 0, cs => ([], cs)
  | k + 1, cs =>
    let sp := cs.takeWhile pyIsSpace
    if sp.isEmpty then ([], cs)
    else
      match matchWord p (cs.dropWhile pyIsSpace) with
      | none => ([], cs)
      | some (w, rest) =>
        let r := matchMoreWords p k rest
        (sp ++ w ++ r.1, r.2)

/-- Match `[A-Z]p+(?:\s+[A-Z]p+){1,maxExtra}` at the start (greedy), i.e. a
capitalised word followed by one to `maxExtra` further capitalised words. -/
def matchNameSeq (p : Char → Bool) (maxExtra : Nat) (cs : List Char) :
    Option (List Char × List Char) :=
  match matchWord p cs with
  | none => none
  | some (w, rest) =>
    let sp := rest.takeWhile pyIsSpace
    if sp.isEmpty then none
    else
      match matchWord p (rest.dropWhile pyIsSpace) with
      | none => none
      | some (w2, rest2) =>
        let r := matchMoreWords p (maxExtra - 1) rest2
        some (w ++ sp ++ w2 ++ r.1, r.2)

/-- Match `Contact\s+Person` at the start. -/
def contactPersonHere (cs : List Char) : Option (List Char) :=
  match litHere "Contact".data cs with
  | none => none
  | some r1 =>
    if (r1.takeWhile pyIsSpace).isEmpty then none
    else litHere "Person".data (r1.dropWhile pyIsSpace)

/-- Match the role alternation
`(?:Contact\s+Person|Manager|Owner|Director|Founder|CEO|Proprietor)` of the
first Method-3 pattern at the start, in the regex alternation order. -/
def rolePat1Here (cs : List Char) : Option (List Char) :=
  (contactPersonHere cs).orElse fun _ =>
  (litHere "Manager".data cs).orElse fun _ =>
  (litHere "Owner".data cs).orElse fun _ =>
  (litHere "Director".data cs).orElse fun _ =>
  (litHere "Founder".data cs).orElse fun _ =>
  (litHere "CEO".data cs).orElse fun _ =>
  litHere "Proprietor".data cs

/-- Match the first Method-3 pattern
`(?:...)\s*[:\-–]\s*([A-Z][a-zA-Z.]+(?:\s+[A-Z][a-zA-Z.]+){1,4})` at the
start of `cs`; on success return the capture group. -/
def pat1Here (cs : List Char) : Option (List Char) :=
  match rolePat1Here cs with
  | none => none
  | some r1 =>
    match r1.dropWhile pyIsSpace with
    | [] => none
    | c :: r3 =>
      if c = ':' || c = '-' || c = '–' then
        match matchNameSeq isNameChar 4 (r3.dropWhile pyIsSpace) with
        | some (g, _) => some g
        | none => none
      else none

/-- `re.search` for the first Method-3 pattern: try every start position,
leftmost first. -/
def searchPat1 : List Char → Option (List Char)
  | [] => none
  | c :: cs =>
    match pat1Here (c :: cs) with
    | some g => some g
    | none => searchPat1 cs

/-- Match `stem` + `d?` + `\s+` + `by` at the start (e.g. `managed?\s+by`).
The optional `d` is deterministic: if the next character is `d` the regex
consumes it greedily, and the backtracking alternative (leaving the `d`)
then fails at `\s+` anyway. -/
def byWordHere (stem : List Char) (cs : List Char) : Option (List Char) :=
  match litHere stem cs with
  | none => none
  | some r1 =>
    let r2 := match r1 with | 'd' :: t => t | _ => r1
    if (r2.takeWhile pyIsSpace).isEmpty then none
    else litHere "by".data (r2.dropWhile pyIsSpace)

/-- Match the second Method-3 pattern
`(?:managed?\s+by|owned?\s+by|founded?\s+by)\s+([A-Z][a-zA-Z]+(?:\s+[A-Z][a-zA-Z]+){1,3})`
at the start of `cs`; on success return the capture group. -/
def pat2Here (cs : List Char) : Option (List Char) :=
  match ((byWordHere "manage".data cs).orElse fun _ =>
         (byWordHere "owne".data cs).orElse fun _ =>
         byWordHere "founde".data cs) with
  | none => none
  | some r1 =>
    if (r1.takeWhile pyIsSpace).isEmpty then none
    else
      match matchNameSeq Char.isAlpha 3 (r1.dropWhile pyIsSpace) with
      | some (g, _) => some g
      | none => none

/-- `re.search` for the second Method-3 pattern. -/
def searchPat2 : List Char → Option (List Char)
  | [] => none
  | c :: cs =>
    match pat2Here (c :: cs) with
    | some g => some g
    | none => searchPat2 cs

/-- The contact-name regex fallback (`scraper.py` lines 354-364): the first
pattern that matches wins, and the captured group is stripped. -/
def method3 (pageText : String) : String :=
  match searchPat1 pageText.data with
  | some g => String.mk (pyStrip g)
  | none =>
    match searchPat2 pageText.data with
    | some g => String.mk (pyStrip g)
    | none => ""

/-- The keyword alternation of the employee-count fallback pattern, in
alternation order (matched case-insensitively under `re.IGNORECASE`). -/
def empKeywords : List (List Char) :=
  ["employees", "staff", "workers", "people"].map String.data

/-- Match `(\d+)\s*[-–]\s*(\d+)\s*(?:employees|staff|workers|people)`
(IGNORECASE) at the start of `cs`; on success return `group(0)`, the matched
span in its original casing. -/
def empPatHere (cs : List Char) : Option (List Char) :=
  let d1 := cs.takeWhile Char.isDigit
  if d1.isEmpty then none
  else
    let r1 := cs.dropWhile Char.isDigit
    let s1 := r1.takeWhile pyIsSpace
    match r1.dropWhile pyIsSpace with
    | [] => none
    | c :: r3 =>
      if c = '-' || c = '–' then
        let s2 := r3.takeWhile pyIsSpace
        let r4 := r3.dropWhile pyIsSpace
        let d2 := r4.takeWhile Char.isDigit
        if d2.isEmpty then none
        else
          let r5 := r4.dropWhile Char.isDigit
          let s3 := r5.takeWhile pyIsSpace
          let r6 := r5.dropWhile pyIsSpace
          match empKeywords.findSome? (fun k =>
              if lowerL (r6.take k.length) = k then some (r6.take k.length) else none) with
          | some kw => some (d1 ++ s1 ++ c :: (s2 ++ d2 ++ s3 ++ kw))
          | none => none
      else none

/-- `re.search` for the employee-count fallback pattern. -/
def searchEmp : List Char → Option (List Char)
  | [] => none
  | c :: cs =>
    match empPatHere (c :: cs) with
    | some g => some g
    | none => searchEmp cs

/-- The employee-count regex fallback (`scraper.py` lines 366-371):
`m.group(0).strip()` of the first match, or the empty string. -/
def empFallback (pageText : String) : String :=
  match searchEmp pageText.data with
  | some g => String.mk (pyStrip g)
  | none => ""

/-- Character class `[a-zA-Z0-9._%+\-]` of the email pattern's local part. -/
def isLocalChar (c : Char) : Bool :=
  c.isAlpha || c.isDigit || c = '.' || c = '_' || c = '%' || c = '+' || c = '-'

/-- Character class `[a-zA-Z0-9.\-]` of the email pattern's domain part. -/
def isDomChar (c : Char) : Bool :=
  c.isAlpha || c.isDigit || c = '.' || c = '-'

/-- Scan the maximal domain-character run `T` for the largest index `k ≥ 1`
such that `T[k] = '.'` and at least two letters follow immediately: this is
the split the backtracking `[a-zA-Z0-9.\-]+\.[a-zA-Z]{2,}` settles on
(the `+` is greedy, so the engine tries larger `k` first). -/
def lastDotSplitGo (idx : Nat) (best : Option Nat) : List Char → Option Nat
  | [] => best
  | c :: cs =>
    let ok := c = '.' && decide (1 ≤ idx) && decide (2 ≤ (cs.takeWhile Char.isAlpha).length)
    lastDotSplitGo (idx + 1) (if ok then some idx else best) cs

/-- Match the email pattern
`[a-zA-Z0-9._%+\-]+@[a-zA-Z0-9.\-]+\.[a-zA-Z]{2,}` at the start of `cs`; on
success return the matched span and the rest of the input after it. -/
def emailHere (cs : List Char) : Option (List Char × List Char) :=
  let lp := cs.takeWhile isLocalChar
  if lp.isEmpty then none
  else
    match cs.dropWhile isLocalChar with
    | '@' :: r =>
      let T := r.takeWhile isDomChar
      let rest0 := r.dropWhile isDomChar
      match lastDotSplitGo 0 none T with
      | none => none
      | some k =>
        let al := (T.drop (k + 1)).takeWhile Char.isAlpha
        some (lp ++ '@' :: (T.take k ++ '.' :: al),
              ((T.drop (k + 1)).dropWhile Char.isAlpha) ++ rest0)
    | _ => none

/-- `re.findall` for the email pattern: leftmost, non-overlapping matches;
scanning resumes after each match.  The fuel is an upper bound on the scan
steps (each step consumes at least one character). -/
def findEmailsGo : Nat → List Char → List (List Char)
  | 0, _ => []
  | fuel + 1, cs =>
    match cs with
    | [] => []
    | c :: rest =>
      match emailHere (c :: rest) with
      | some (m, r) => m :: findEmailsGo fuel r
      | none => findEmailsGo fuel rest

def findEmails (s : String) : List String :=
  (findEmailsGo (s.data.length + 1) s.data).map String.mk

/-- The domain deny-list of the email scan (`scraper.py` lines 347-350). -/
def emailSkipList : List String :=
  ["businesslist", "example.com", "sentry", "noreply",
   "wixpress", "schema.org", "w3.org", "googleapis"]

/-- The `for em in emails` loop (`scraper.py` lines 345-352): the first email
none of whose deny-listed substrings occurs in its lowercasing, or `""`. -/
def firstGoodEmail : List String → String
  | [] => ""
  | e :: es =>
    if emailSkipList.any (fun k => containsSeq k.data (lowerL e.data)) then firstGoodEmail es
    else e

/-- `href.split("mailto:")[-1]`-style helper: the suffix after the last
separator occurrence found by a left-to-right, non-overlapping scan (the whole
string when the separator does not occur). -/
def afterLastSepGo (sep : List Char) : Nat → List Char → List Char → List Char
  | 0, _, ans => ans
  | fuel + 1, cs, ans =>
    match cs with
    | [] => ans
    | c :: rest =>
      if sep.isPrefixOf (c :: rest) then
        let r := (c :: rest).drop sep.length
        afterLastSepGo sep fuel r r
      else afterLastSepGo sep fuel rest ans

def afterLastSep (sep s : List Char) : List Char :=
  afterLastSepGo sep (s.length + 1) s s

/-- `s.split(sep)[0]`: the prefix before the first separator occurrence. -/
def beforeFirstSepGo (sep : List Char) : Nat → List Char → List Char
  | 0, _ => []
  | fuel + 1, cs =>
    match cs with
    | [] => []
    | c :: rest =>
      if sep.isPrefixOf (c :: rest) then []
      else c :: beforeFirstSepGo sep fuel rest

def beforeFirstSep (sep s : List Char) : List Char :=
  beforeFirstSepGo sep (s.length + 1) s

/-- `mailto["href"].split("mailto:")[-1].split("?")[0].strip()`
(`scraper.py` line 337). -/
def mailtoEmail (href : String) : String :=
  String.mk (pyStrip (beforeFirstSep "?".data (afterLastSep "mailto:".data href.data)))

/-- The email extraction of `scrape_company` (`scraper.py` lines 333-352):
mailto link first, then the raw-HTML regex scan if that produced nothing. -/
def extractEmail (doc : Document) : String :=
  let e1 := match doc.mailtoHref with
    | some href => mailtoEmail href
    | none => ""
  if e1 ≠ "" then e1
  else firstGoodEmail (findEmails doc.rawHtml)

/-- Does `\s*-\s*[A-Z][a-zA-Z\s,]+Philippines$` match `cs` exactly to the
end?  Because `$` anchors the literal `Philippines` to the final characters,
the greedy `[a-zA-Z\s,]+` must cover exactly the characters between the
uppercase letter and that final literal. -/
def companySfxHere (cs : List Char) : Bool :=
  match cs.dropWhile pyIsSpace with
  | '-' :: r2 =>
    match r2.dropWhile pyIsSpace with
    | c :: r4 =>
      let phl := "Philippines".data
      c.isUpper &&
      decide (phl.length + 1 ≤ r4.length) &&
      (r4.take (r4.length - phl.length)).all (fun c2 => c2.isAlpha || pyIsSpace c2 || c2 = ',') &&
      decide (r4.drop (r4.length - phl.length) = phl)
    | [] => false
  | _ => false

def cleanCompanyGo (done : List Char) : List Char → List Char
  | [] => done.reverse
  | c :: cs =>
    if companySfxHere (c :: cs) then done.reverse
    else cleanCompanyGo (c :: done) cs

/-- Model of
`re.sub(r"\s*-\s*[A-Z][a-zA-Z\s,]+Philippines$", "", name).strip()`
(`scraper.py` line 279): drop the leftmost match, which necessarily extends to
the end of the string, then strip. -/
def cleanCompany (t : String) : String :=
  String.mk (pyStrip (cleanCompanyGo [] t.data))

/-- The running state of the Method-1 loop (`scraper.py` lines 283-312):
`contact_name`, `record["title"]` and `record["employee_range"]`. -/
structure M1State where
  cn : String
  title : String
  er : String
deriving DecidableEq

/-- The label keywords of Method 1 (`scraper.py` lines 292-294). -/
def roleKeys1 : List String :=
  ["manager", "contact person", "owner", "director", "principal",
   "representative", "founder", "ceo", "proprietor"]

/-- The title chain of Method 1 (`scraper.py` lines 296-309). -/
def titleFor (label : List Char) : String :=
  if containsSeq "manager".data label then "Manager"
  else if containsSeq "owner".data label then "Owner"
  else if containsSeq "director".data label then "Director"
  else if containsSeq "founder".data label then "Founder"
  else if containsSeq "ceo".data label then "CEO"
  else if containsSeq "proprietor".data label then "Proprietor"
  else "Contact Person"

/-- One iteration of the Method-1 loop: an info div without a label div is
skipped; the value is the info text with the label text removed from the
front and stripped; a role label overwrites the contact name and title, an
"employee" label overwrites the employee range. -/
def m1Step (st : M1State) (d : InfoDiv) : M1State :=
  match d.label with
  | none => st
  | some lt =>
    let label := lowerL lt.data
    let value := String.mk (pyStrip (d.text.data.drop lt.data.length))
    if roleKeys1.any (fun k => containsSeq k.data label) then
      { cn := value, title := titleFor label, er := st.er }
    else if containsSeq "employee".data label then
      { st with er := value }
    else st

def method1 (doc : Document) : M1State :=
  doc.infoDivs.foldl m1Step { cn := "", title := "", er := "" }

/-- The label keywords of Method 2 (`scraper.py` lines 325-327). -/
def roleKeys2 : List String :=
  ["contact person", "manager", "owner", "director", "founder", "ceo", "proprietor"]

/-- One iteration of the Method-2 loop (`scraper.py` lines 316-331), on the
state `(contact_name, employee_range)`: the value element is the next value
sibling, falling back to the next value element; a role label overwrites the
contact name, an employee/staff label fills the employee range only when it
is still empty. -/
def m2Step (st : String × String) (e : LabelEl) : String × String :=
  let label := lowerL e.label.data
  match (match e.sibling with | some v => some v | none => e.next) with
  | none => st
  | some v =>
    if roleKeys2.any (fun k => containsSeq k.data label) then (v, st.2)
    else if st.2 = "" && (containsSeq "employee".data label || containsSeq "staff".data label) then
      (st.1, v)
    else st

/-- The Method-2 loop, entered only when Method 1 found no contact name;
`er0` is the employee range Method 1 may already have filled. -/
def method2 (doc : Document) (er0 : String) : String × String :=
  doc.labelEls.foldl m2Step ("", er0)

/-- The contact name and employee range after the full cascade
(`scraper.py` lines 283-331 and 354-371): Method 1, then Method 2 if no name
yet, then the regex fallbacks for whichever of the two is still empty. -/
def cnEr (doc : Document) : String × String :=
  let m1 := method1 doc
  let p := if m1.cn = "" then method2 doc m1.er else (m1.cn, m1.er)
  let cn := if p.1 = "" then method3 doc.pageText else p.1
  let er := if p.2 = "" then empFallback doc.pageText else p.2
  (cn, er)

/-- The raw record produced by `scrape_company` for one detail page
(`scraper.py` lines 260-268). -/
structure CandidateRecord where
  first_name : String
  last_name : String
  company : String
  email : String
  title : String
  employee_range : String
  source_url : String
deriving DecidableEq

/-- The record built by `scrape_company` from a fetched document
(`scraper.py` lines 260-379): company from the `h1` heading with the
city suffix stripped, contact name through the cascade (parsed into first and
last name only when non-empty), email and employee range as extracted, and
the title only Method 1 ever sets. -/
def extractRecord (doc : Document) (url : String) : CandidateRecord :=
  let company := match doc.h1 with
    | some t => cleanCompany t
    | none => ""
  let cn := (cnEr doc).1
  let nm := if cn ≠ "" then parse_name cn else ("", "")
  { first_name := nm.1
    last_name := nm.2
    company := company
    email := extractEmail doc
    title := (method1 doc).title
    employee_range := (cnEr doc).2
    source_url := url }

/-- Model of `scrape_company` (`scraper.py` lines 254-379) as a function of
the detail-page fetch outcome: `None` exactly when the fetch failed, otherwise
the extracted record. -/
def scrape_company (fetched : Option Document) (url : String) : Option CandidateRecord :=
  match fetched with
  | none => none
  | some doc => some (extractRecord doc url)

/-- The externally emitted record shape (`scraper.py` lines 391-397). -/
structure CleanRecord where
  first_name : String
  last_name : String
  company : String
  email : String
  title : String
deriving DecidableEq

/-- Model of `BusinessListScraper._process_record` (`scraper.py`
lines 381-397). -/
def processRecord : Option CandidateRecord → Option CleanRecord
  | none => none
  | some r =>
    if r.first_name = "" then none
    else if r.employee_range ≠ "" ∧ employee_range_matches r.employee_range = false then none
    else some { first_name := r.first_name, last_name := r.last_name,
                company := r.company, email := r.email, title := r.title }

/-! ## Crawl orchestrator (BusinessListScraper.scrape) -/

def BASE_URL : String := "https://www.businesslist.ph"

/-- The location list (`scraper.py` lines 40-104). -/
def LOCATIONS : List String :=
  ["manila", "quezon-city", "makati", "pasig", "taguig", "mandaluyong",
   "cebu-city", "davao-city", "pasay", "paranaque", "san-juan", "caloocan",
   "valenzuela", "muntinlupa", "las-pinas", "marikina", "malabon", "navotas",
   "pateros", "antipolo", "cainta", "taytay", "bacoor", "imus", "dasmarinas",
   "general-trias", "cavite-city", "san-pedro", "binan", "santa-rosa",
   "cabuyao", "calamba", "angeles-city", "san-fernando", "olongapo", "subic",
   "baguio", "iloilo-city", "bacolod", "cagayan-de-oro", "zamboanga-city",
   "general-santos", "butuan", "tacloban", "legazpi", "naga", "lipa",
   "batangas-city", "lucena", "puerto-princesa", "tagbilaran", "dumaguete",
   "roxas", "pagadian", "iligan", "surigao", "tuguegarao", "santiago",
   "cauayan", "san-jose", "cabanatuan", "meycauayan", "malolos"]

/-- The listing-page URL built by `get_listing_urls` (`scraper.py` line 235). -/
def listingUrl (location : String) (page : Nat) : String :=
  if page > 1 then BASE_URL ++ "/location/" ++ location ++ "/" ++ toString page
  else BASE_URL ++ "/location/" ++ location

/-- `re.match(r"/company/\d+/", href)`: the pattern anchored at the start. -/
def companyPat (href : List Char) : Bool :=
  match litHere "/company/".data href with
  | none => false
  | some r =>
    !(r.takeWhile Char.isDigit).isEmpty &&
    (match r.dropWhile Char.isDigit with | '/' :: _ => true | _ => false)

/-- `re.search(r"/company/\d+/", href)`: the pattern anywhere. -/
def companyPatSearch : List Char → Bool
  | [] => false
  | c :: cs => companyPat (c :: cs) || companyPatSearch cs

/-- Append a URL unless it is already present (`if full_url not in urls`). -/
def addUrl (urls : List String) (u : String) : List String :=
  if u ∈ urls then urls else urls ++ [u]

/-- One iteration of the link loop of `get_listing_urls` (`scraper.py`
lines 242-251). -/
def linkStep (urls : List String) (href : String) : List String :=
  if "/company/".data.isPrefixOf href.data && companyPat href.data then
    addUrl urls (BASE_URL ++ href)
  else if containsSeq "businesslist.ph/company/".data href.data && companyPatSearch href.data then
    addUrl urls href
  else urls

/-- The company-detail URLs extracted from a listing document. -/
def linkUrls (doc : Document) : List String :=
  doc.links.foldl linkStep []

/-- The outcome of one worker-pool call `scrape_one(url)` (`scraper.py`
lines 418-421 and 457-462): either the worker raised (any exception, caught
at `future.result()`), or the detail-page fetch completed with the given
`fetch_page` result. -/
inductive WorkerOutcome where
  | exn
  | fetched (d : Option Document)

/-- The crawl's environment: what `fetch_page` returns for each listing URL,
and what each worker-pool detail call produces.  Worker completions are
modelled in submission order (the dedup filtering and submission decisions
under verification all happen on the control thread before dispatch). -/
structure Env where
  fetchResult : String → Option Document
  detailOutcome : String → WorkerOutcome

/-- Model of `get_listing_urls` (`scraper.py` lines 233-252). -/
def get_listing_urls (env : Env) (location : String) (page : Nat) : List String :=
  match env.fetchResult (listingUrl location page) with
  | none => []
  | some doc => linkUrls doc

/-- The dedup key of a detail URL (`scraper.py` line 448):
`url.split("/company/")[-1] if "/company/" in url else url`, which in both
cases is the suffix after the last scan-found `/company/` occurrence. -/
def dedupKey (url : String) : String :=
  String.mk (afterLastSep "/company/".data url.data)

/-- The mutable crawl state owned by the control thread. -/
structure LoopState where
  results : List CleanRecord
  seen : List String
  totalScraped : Nat
deriving DecidableEq

/-- The per-page dedup filter (`scraper.py` lines 445-451): returns the grown
`seen_companies` set and the `new_urls` list, in order. -/
def filterNew (seen : List String) : List String → List String × List String
  | [] => (seen, [])
  | u :: rest =>
    if dedupKey u ∈ seen then filterNew seen rest
    else
      let r := filterNew (dedupKey u :: seen) rest
      (r.1, u :: r.2)

/-- The aggregation loop over one page's completed futures (`scraper.py`
lines 457-469): a raised worker is skipped (`continue`), otherwise the raw
record is validated and appended, and the loop breaks as soon as the target
is reached.  Returns the new `results` and `total_scraped`. -/
def aggregate (env : Env) (target : Nat) :
    List String → List CleanRecord → Nat → List CleanRecord × Nat
  | [], results, ts => (results, ts)
  | u :: rest, results, ts =>
    match env.detailOutcome u with
    | .exn => aggregate env target rest results (ts + 1)
    | .fetched od =>
      let results2 := match processRecord (scrape_company od u) with
        | some c => results ++ [c]
        | none => results
      if target ≤ results2.length then (results2, ts + 1)
      else aggregate env target rest results2 (ts + 1)

/-- The `while len(results) < target` page loop for one location
(`scraper.py` lines 430-481), with a fuel bound on the number of page
iterations (the source loop is unbounded; exhausted fuel truncates the run).
Returns the final state, the `(location, page)` pairs of the listing pages
visited, and the detail URLs submitted to the worker pool, in order. -/
def innerLoop (env : Env) (target : Nat) (location : String) :
    Nat → Nat → Nat → LoopState → LoopState × List (String × Nat) × List String
  | 0, _, _, st => (st, [], [])
  | fuel + 1, page, ce, st =>
    if target ≤ st.results.length then (st, [], [])
    else
      let urls := get_listing_urls env location page
      if urls = [] then
        if 2 ≤ ce + 1 then (st, [(location, page)], [])
        else
          let r := innerLoop env target location fuel (page + 1) (ce + 1) st
          (r.1, (location, page) :: r.2.1, r.2.2)
      else
        let fn := filterNew st.seen urls
        let ag := aggregate env target fn.2 st.results st.totalScraped
        let r := innerLoop env target location fuel (page + 1) 0 ⟨ag.1, fn.1, ag.2⟩
        (r.1, (location, page) :: r.2.1, fn.2 ++ r.2.2)

/-- The `for loc_idx in range(start_loc_idx, len(LOCATIONS))` loop
(`scraper.py` lines 423-484): each location runs the page loop (the first
from the resumed page, later ones from page 1 with a fresh
`consecutive_empty`), and the whole crawl breaks once the target is reached. -/
def locLoop (env : Env) (target fuel : Nat) :
    List String → Nat → LoopState → LoopState × List (String × Nat) × List String
  | [], _, st => (st, [], [])
  | loc :: rest, page0, st =>
    let r := innerLoop env target loc fuel page0 0 st
    if target ≤ r.1.results.length then r
    else
      let r2 := locLoop env target fuel rest 1 r.1
      (r2.1, r.2.1 ++ r2.2.1, r.2.2 ++ r2.2.2)

/-- A loaded checkpoint snapshot (`scraper.py` lines 410-416): the fields
`results`, `seen_companies`, `location_idx` and `page` of the checkpoint
JSON. -/
structure ResumeState where
  results : List CleanRecord
  seen_companies : List String
  location_idx : Nat
  page : Nat

/-- Model of `BusinessListScraper.scrape` (`scraper.py` lines 399-493):
state initialisation (fresh or from the resume snapshot), then the location
loop.  `total_scraped` always restarts at 0 (it is not checkpointed).
Checkpoint writes are I/O and are not modelled. -/
def scrape (env : Env) (target : Nat) (resume : Option ResumeState) (fuel : Nat) :
    LoopState × List (String × Nat) × List String :=
  match resume with
  | none => locLoop env target fuel LOCATIONS 1 ⟨[], [], 0⟩
  | some rs =>
    locLoop env target fuel (LOCATIONS.drop rs.location_idx) rs.page
      ⟨rs.results, rs.seen_companies, 0⟩

/-! ## Concrete fixtures used by witnesses and counterexamples -/

/-- A fetched document with no recognisable content at all. -/
def emptyDoc : Document :=
  { h1 := none, infoDivs := [], labelEls := [], mailtoHref := none,
    rawHtml := "", pageText := "", links := [] }

/-- Every attempt returns HTTP 304 (a non-2xx, non-404, non-429 status for
which `raise_for_status` does not raise). -/
def f304 : Nat → Attempt := fun _ => .response 304 emptyDoc

/-- Every attempt returns HTTP 404. -/
def f404 : Nat → Attempt := fun _ => .response 404 emptyDoc

/-- Every attempt fails at transport level. -/
def fErr : Nat → Attempt := fun _ => .transportError

/-- Every attempt returns HTTP 200. -/
def fOk : Nat → Attempt := fun _ => .response 200 emptyDoc

/-- A listing document whose only link is one company detail URL. -/
def docOneCompany : Document := { emptyDoc with links := ["/company/12/acme"] }

/-- Environment in which the first three listing pages of `manila` each carry
the single company link of `docOneCompany` and every other fetch fails. -/
def envAllSeen : Env :=
  { fetchResult := fun u =>
      if u = "https://www.businesslist.ph/location/manila" ∨
         u = "https://www.businesslist.ph/location/manila/2" ∨
         u = "https://www.businesslist.ph/location/manila/3"
      then some docOneCompany else none
    detailOutcome := fun _ => .exn }

/-- Environment in which every fetch fails. -/
def envNone : Env :=
  { fetchResult := fun _ => none, detailOutcome := fun _ => .exn }

/-- A resume snapshot whose seen set has one unrelated key. -/
def rsSeenOther : ResumeState :=
  { results := [], seen_companies := ["zzz"], location_idx := 0, page := 1 }

/-- Environment in which only the last location's first listing page lists one
company and every worker call raises. -/
def envMalolos : Env :=
  { fetchResult := fun u =>
      if u = "https://www.businesslist.ph/location/malolos" then some docOneCompany else none
    detailOutcome := fun _ => .exn }

/-- A resume snapshot positioned at the last location (index 62), with one
unrelated seen key. -/
def rsMalolos : ResumeState :=
  { results := [], seen_companies := ["zzz"], location_idx := 62, page := 1 }

/-- A candidate record that passes validation. -/
def okRecord : CandidateRecord :=
  { first_name := "Juan", last_name := "Dela Cruz", company := "Acme",
    email := "", title := "Manager", employee_range := "", source_url := "u" }

/-! ## Helper lemmas -/

lemma splitRunsAux_ne_nil (p : Char → Bool) :
    ∀ (l cur : List Char), cur ≠ [] → splitRunsAux p cur l ≠ [] := by
  intro l
  induction l with
  | nil => intro cur h; simp [splitRunsAux, h]
  | cons c cs ih =>
    intro cur h
    by_cases hp : p c = true
    · simpa [splitRunsAux, hp] using ih (c :: cur) (by simp)
    · simp [splitRunsAux, hp, h]

lemma splitRunsAux_sound (p : Char → Bool) :
    ∀ (l cur : List Char), (∀ c ∈ cur, p c = true) →
      ∀ w ∈ splitRunsAux p cur l, w ≠ [] ∧ ∀ c ∈ w, p c = true := by
  intro l
  induction l with
  | nil =>
    intro cur hcur w hw
    by_cases h : cur = []
    · simp [splitRunsAux, h] at hw
    · simp [splitRunsAux, h] at hw
      subst hw
      refine ⟨by simpa using h, ?_⟩
      intro c hc
      exact hcur c (by simpa using hc)
  | cons c cs ih =>
    intro cur hcur w hw
    by_cases hp : p c = true
    · refine ih (c :: cur) ?_ w (by simpa [splitRunsAux, hp] using hw)
      intro d hd
      rcases List.mem_cons.mp hd with h | h
      · subst h; exact hp
      · exact hcur d h
    · by_cases h : cur = []
      · exact ih [] (by simp) w (by simpa [splitRunsAux, hp, h] using hw)
      · have hw2 : w = cur.reverse ∨ w ∈ splitRunsAux p [] cs := by
          simpa [splitRunsAux, hp, h] using hw
        rcases hw2 with hw2 | hw2
        · subst hw2
          refine ⟨by simpa using h, ?_⟩
          intro d hd
          exact hcur d (by simpa using hd)
        · exact ih [] (by simp) w hw2

lemma splitRuns_sound (p : Char → Bool) (l : List Char) :
    ∀ w ∈ splitRuns p l, w ≠ [] ∧ ∀ c ∈ w, p c = true :=
  splitRunsAux_sound p l [] (by simp)

lemma splitRuns_eq_nil (p : Char → Bool) :
    ∀ l : List Char, splitRuns p l = [] → ∀ c ∈ l, p c = false := by
  intro l
  induction l with
  | nil => simp
  | cons c cs ih =>
    intro h d hd
    by_cases hp : p c = true
    · exact absurd h (by
        simpa [splitRuns, splitRunsAux, hp] using splitRunsAux_ne_nil p cs [c] (by simp))
    · rcases List.mem_cons.mp hd with hcase | hcase
      · subst hcase; simpa using hp
      · exact ih (by simpa [splitRuns, splitRunsAux, hp] using h) d hcase

lemma parse_name_eq (s : String) :
    parse_name s =
      if is_valid_nameL (parsedCore s) = false then ("", "")
      else
        match pySplit (parsedCore s) with
        | [] => ("", "")
        | [w] => (String.mk w, "")
        | w :: ws => (String.mk w, String.mk (joinSpace ws)) := rfl

lemma employee_range_matches_eq (s : String) :
    employee_range_matches s =
      match (splitRuns Char.isDigit (employeeNormalize s)).map natOfDigits with
      | lo :: hi :: _ => decide (10 ≤ lo) && decide (hi ≤ 500)
      | [n] => decide (10 ≤ n) && decide (n ≤ 500)
      | [] => decide (String.mk (employeeNormalize s) ∈ VALID_EMPLOYEE_RANGES) := rfl

/-! ## Claims -/

/-- C10: for every input string, `parse_name` returns either `("", "")` or a
pair whose first component is non-empty and contains no whitespace; an empty
first component forces the whole result to be `("", "")`, so a caller may
test "no name found" by checking the first component alone. -/
theorem C10_parse_name_shape (s : String) :
    ((parse_name s).1 = "" → parse_name s = ("", "")) ∧
    (parse_name s).1.data.all (fun c => !pyIsSpace c) = true := by
  cases hv : is_valid_nameL (parsedCore s) with
  | false =>
    have hpn : parse_name s = ("", "") := by
      rw [parse_name_eq, hv]
      exact if_pos rfl
    rw [hpn]
    exact ⟨fun _ => rfl, by decide⟩
  | true =>
    cases hsp : pySplit (parsedCore s) with
    | nil =>
      have hpn : parse_name s = ("", "") := by
        rw [parse_name_eq, hv, hsp]
        exact rfl
      rw [hpn]
      exact ⟨fun _ => rfl, by decide⟩
    | cons w ws =>
      have hsound := splitRuns_sound (fun c => !pyIsSpace c) (parsedCore s) w
        (by rw [show splitRuns (fun c => !pyIsSpace c) (parsedCore s)
                  = pySplit (parsedCore s) from rfl, hsp]
            exact List.mem_cons_self w ws)
      have hfst : ∀ res : String × String,
          res.1 = String.mk w →
          ((res.1 = "" → res = ("", "")) ∧ res.1.data.all (fun c => !pyIsSpace c) = true) := by
        intro res hres
        constructor
        · intro h
          exfalso
          apply hsound.1
          rw [hres] at h
          have h3 : w = ("" : String).data := congrArg String.data h
          exact h3.trans (by decide)
        · rw [hres]
          have hall : ((String.mk w).data.all fun c => !pyIsSpace c) = true := by
            rw [List.all_eq_true]
            intro c hc
            exact hsound.2 c hc
          exact hall
      cases ws with
      | nil =>
        have hpn : parse_name s = (String.mk w, "") := by
          rw [parse_name_eq, hv, hsp]
          exact rfl
        rw [hpn]
        exact hfst _ rfl
      | cons v vs =>
        have hpn : parse_name s = (String.mk w, String.mk (joinSpace (v :: vs))) := by
          rw [parse_name_eq, hv, hsp]
          exact rfl
        rw [hpn]
        exact hfst _ rfl

/-- C10 witness: the theorem applied at a concrete string, discharging the
hypothesis of its first component. -/
theorem C10_parse_name_shape_witness : parse_name "N/A" = ("", "") :=
  (C10_parse_name_shape "N/A").1 (by decide)

/-- C6: `parse_name` collapses whitespace, strips honorific prefixes and
generational suffixes (the pipeline `parsedCore`), re-validates with
`is_valid_name` and returns `("", "")` on validation failure; otherwise the
first whitespace-separated token is the first name and the remaining tokens
joined by single spaces are the last name (a single-token name yields an
empty last name, since joining no tokens gives the empty string). -/
theorem C6_parse_name_split (s : String) :
    (is_valid_nameL (parsedCore s) = false → parse_name s = ("", "")) ∧
    (∀ w ws, is_valid_nameL (parsedCore s) = true → pySplit (parsedCore s) = w :: ws →
      parse_name s = (String.mk w, String.mk (joinSpace ws))) := by
  constructor
  · intro hv
    rw [parse_name_eq, hv]
    exact if_pos rfl
  · intro w ws hv hsp
    cases ws with
    | nil =>
      rw [parse_name_eq, hv, hsp]
      simp [joinSpace]
    | cons v vs =>
      rw [parse_name_eq, hv, hsp]
      exact rfl

/-- C6 witness: the theorem applied at the three concrete examples of the
claim, discharging the validation and splitting hypotheses there. -/
theorem C6_parse_name_split_witness :
    parse_name "Dr. Juan Carlos Santos Jr." = ("Juan", "Carlos Santos") ∧
    parse_name "N/A" = ("", "") ∧ parse_name "" = ("", "") := by
  refine ⟨?_, ?_, ?_⟩
  · exact ((C6_parse_name_split "Dr. Juan Carlos Santos Jr.").2
      "Juan".data ["Carlos".data, "Santos".data] (by decide) (by decide)).trans (by decide)
  · exact (C6_parse_name_split "N/A").1 (by decide)
  · exact (C6_parse_name_split "").1 (by decide)

/-- C5: `employee_range_matches` normalises the text, extracts the decimal
runs, and accepts two-or-more numbers iff the first is at least 10 and the
second at most 500, a single number iff it lies in `[10, 500]`, and no number
iff the normalised text is a member of `VALID_EMPLOYEE_RANGES`. -/
theorem C5_employee_range_branches (s : String) :
    (∀ lo hi rest, (splitRuns Char.isDigit (employeeNormalize s)).map natOfDigits = lo :: hi :: rest →
      (employee_range_matches s = true ↔ 10 ≤ lo ∧ hi ≤ 500)) ∧
    (∀ n, (splitRuns Char.isDigit (employeeNormalize s)).map natOfDigits = [n] →
      (employee_range_matches s = true ↔ 10 ≤ n ∧ n ≤ 500)) ∧
    ((splitRuns Char.isDigit (employeeNormalize s)).map natOfDigits = [] →
      (employee_range_matches s = true ↔ String.mk (employeeNormalize s) ∈ VALID_EMPLOYEE_RANGES)) := by
  refine ⟨?_, ?_, ?_⟩
  · intro lo hi rest h
    rw [employee_range_matches_eq, h]
    simp
  · intro n h
    rw [employee_range_matches_eq, h]
    simp
  · intro h
    rw [employee_range_matches_eq, h]
    simp

/-- C5 witness: the theorem applied at the claim's concrete examples,
discharging the number-extraction hypotheses there. -/
theorem C5_employee_range_branches_witness :
    employee_range_matches "15-30" = true ∧ employee_range_matches "600-900" = false := by
  constructor
  · exact ((C5_employee_range_branches "15-30").1 15 30 [] (by decide)).mpr (by decide)
  · have h := (C5_employee_range_branches "600-900").1 600 900 [] (by decide)
    cases hb : employee_range_matches "600-900" with
    | false => rfl
    | true => exact absurd (h.mp hb).2 (by decide)

/-- C9: every literal in `VALID_EMPLOYEE_RANGES` contains a digit, while the
set-membership fallback of `employee_range_matches` is reached only when the
normalised text has no digit run, so the fallback never accepts: whenever
`employee_range_matches` returns true, at least one digit run was found.  In
particular `employee_range_matches "5-10" = false` although `"5-10"` is a
member of the set. -/
theorem C9_fallback_unreachable :
    (∀ v ∈ VALID_EMPLOYEE_RANGES, v.data.any Char.isDigit = true) ∧
    (∀ s : String, employee_range_matches s = true →
      splitRuns Char.isDigit (employeeNormalize s) ≠ []) ∧
    employee_range_matches "5-10" = false ∧ "5-10" ∈ VALID_EMPLOYEE_RANGES := by
  refine ⟨by decide, ?_, by decide, by decide⟩
  intro s h hnil
  rw [employee_range_matches_eq, hnil] at h
  simp only [List.map_nil, decide_eq_true_eq] at h
  have h19 : ∀ v ∈ VALID_EMPLOYEE_RANGES, v.data.any Char.isDigit = true := by decide
  have hdig : (String.mk (employeeNormalize s)).data.any Char.isDigit = true := h19 _ h
  rw [List.any_eq_true] at hdig
  obtain ⟨c, hc, hcd⟩ := hdig
  have hnodig := splitRuns_eq_nil Char.isDigit (employeeNormalize s) hnil c hc
  rw [hnodig] at hcd
  exact Bool.false_ne_true hcd

/-- C9 witness: the theorem applied at concrete inputs, discharging the
membership and digit-freeness hypotheses there. -/
theorem C9_fallback_unreachable_witness :
    ("5-10" : String).data.any Char.isDigit = true ∧
    employee_range_matches "abc" = false := by
  constructor
  · exact C9_fallback_unreachable.1 "5-10" (by decide)
  · cases hb : employee_range_matches "abc" with
    | false => rfl
    | true =>
      exact absurd (by decide : splitRuns Char.isDigit (employeeNormalize "abc") = [])
        (C9_fallback_unreachable.2.1 "abc" hb)

/-- C4: `_process_record` returns `None` exactly when the candidate has no
first name, or has a non-empty employee range rejected by
`employee_range_matches`; an empty employee range passes without
`employee_range_matches` being consulted — which matters, because
`employee_range_matches ""` is `false` and would reject — and every surviving
record is reduced to exactly the clean shape whose fields are copied from the
candidate. -/
theorem C4_process_record :
    (∀ r : CandidateRecord, processRecord (some r) = none ↔
      (r.first_name = "" ∨
        (r.employee_range ≠ "" ∧ employee_range_matches r.employee_range = false))) ∧
    (∀ (r : CandidateRecord) (c : CleanRecord), processRecord (some r) = some c →
      c = { first_name := r.first_name, last_name := r.last_name, company := r.company,
            email := r.email, title := r.title }) ∧
    employee_range_matches "" = false := by
  refine ⟨?_, ?_, by decide⟩
  · intro r
    by_cases h1 : r.first_name = ""
    · simp [processRecord, h1]
    · by_cases h2 : r.employee_range ≠ "" ∧ employee_range_matches r.employee_range = false
      · simp [processRecord, h1, h2]
      · simp [processRecord, h1, h2]
  · intro r c h
    by_cases h1 : r.first_name = ""
    · simp [processRecord, h1] at h
    · by_cases h2 : r.employee_range ≠ "" ∧ employee_range_matches r.employee_range = false
      · simp [processRecord, h1, h2] at h
      · simp [processRecord, h1, h2] at h
        exact h.symm

/-- C4 witness: the theorem applied at concrete records, discharging the
hypotheses of its clean-shape and rejection parts. -/
theorem C4_process_record_witness :
    ({ first_name := "Juan", last_name := "Dela Cruz", company := "Acme",
       email := "", title := "Manager" } : CleanRecord) =
      { first_name := okRecord.first_name, last_name := okRecord.last_name,
        company := okRecord.company, email := okRecord.email, title := okRecord.title } ∧
    processRecord (some { okRecord with first_name := "" }) = none := by
  constructor
  · exact C4_process_record.2.1 okRecord _ (by decide)
  · exact (C4_process_record.1 _).mpr (Or.inl rfl)

lemma fetchLoop_retry (f : Nat → Attempt) :
    ∀ (k a rem : Nat), k ≤ rem → (∀ i, i < k → retryable (f (a + i))) →
      fetchLoop f a rem =
        ((fetchLoop f (a + k) (rem - k)).1,
          backoffWaits a k ++ (fetchLoop f (a + k) (rem - k)).2) := by
  intro k
  induction k with
  | zero => intro a rem _ _; simp [backoffWaits]
  | succ n ih =>
    intro a rem hk hr
    obtain ⟨rem2, rfl⟩ : ∃ m, rem = m + 1 := ⟨rem - 1, by omega⟩
    have h0 : retryable (f a) := by simpa using hr 0 (by omega)
    have hstep : fetchLoop f a (rem2 + 1) =
        ((fetchLoop f (a + 1) rem2).1, 2 ^ (a + 1) :: (fetchLoop f (a + 1) rem2).2) := by
      cases hfa : f a with
      | transportError => simp only [fetchLoop]; rw [hfa]
      | response c doc =>
        rw [hfa] at h0
        by_cases hc : c = 429
        · simp only [fetchLoop]; rw [hfa]; simp [hc]
        · have hrange : 400 ≤ c ∧ c < 600 ∧ c ≠ 404 := by
            rcases h0 with h0 | h0
            · exact absurd h0 hc
            · exact h0
          simp only [fetchLoop]; rw [hfa]
          simp [hc, hrange.2.2, hrange.1, hrange.2.1]
    have hrest : ∀ i, i < n → retryable (f (a + 1 + i)) := by
      intro i hi
      have heq : a + 1 + i = a + (i + 1) := by omega
      rw [heq]
      exact hr (i + 1) (by omega)
    have hih := ih (a + 1) rem2 (by omega) hrest
    rw [hstep, hih]
    have he1 : a + 1 + n = a + (n + 1) := by omega
    have he2 : rem2 - n = rem2 + 1 - (n + 1) := by omega
    rw [he1, he2]
    rfl

/-- C7 counterexample: an HTTP 304 response — a non-2xx status that is
neither 404 nor 429 and for which `raise_for_status` does not raise — is
returned as a parsed document on the very first attempt, not as `Absent`,
refuting "any other non-2xx status that persists through the retry budget
yields Absent". -/
theorem C7_fetch_counterexample :
    fetch_page f304 = (some emptyDoc, []) ∧ (fetch_page f304).1 ≠ none := by decide

/-- C7 as amended: `fetch_page` never raises (it is a total function into
`Option`); an HTTP 404 yields `Absent` immediately with no retry; HTTP 429,
transport errors and error statuses (4xx/5xx other than 404) are retried with
exponential waits `2 ^ (attempt + 1)` up to 4 total attempts, and exhaustion
yields `Absent`; but a response whose status is outside 400-599 — 2xx as well
as 1xx/3xx — yields the parsed document at once. -/
theorem C7_fetch_amended :
    (∀ f : Nat → Attempt, (∀ i, i < 4 → retryable (f i)) →
      fetch_page f = (none, [2, 4, 8, 16])) ∧
    (∀ (f : Nat → Attempt) (k : Nat) (d : Document), k < 4 →
      (∀ i, i < k → retryable (f i)) → f k = .response 404 d →
      fetch_page f = (none, backoffWaits 0 k)) ∧
    (∀ (f : Nat → Attempt) (k c : Nat) (d : Document), k < 4 →
      (∀ i, i < k → retryable (f i)) → f k = .response c d →
      (c < 400 ∨ 600 ≤ c) →
      fetch_page f = (some d, backoffWaits 0 k)) := by
  refine ⟨?_, ?_, ?_⟩
  · intro f hr
    have h := fetchLoop_retry f 4 0 4 (by omega) (fun i hi => by simpa using hr i hi)
    rw [show (0 : Nat) + 4 = 4 from rfl] at h
    rw [fetch_page, h]
    rfl
  · intro f k d hk hr hfk
    have h := fetchLoop_retry f k 0 4 (by omega) (fun i hi => by simpa using hr i hi)
    rw [Nat.zero_add] at h
    obtain ⟨m, hm⟩ : ∃ m, 4 - k = m + 1 := ⟨4 - k - 1, by omega⟩
    rw [fetch_page, h, hm]
    have hstep : fetchLoop f k (m + 1) = (none, []) := by
      simp only [fetchLoop]
      rw [hfk]
      rfl
    rw [hstep]
    simp
  · intro f k c d hk hr hfk hc
    have h := fetchLoop_retry f k 0 4 (by omega) (fun i hi => by simpa using hr i hi)
    rw [Nat.zero_add] at h
    obtain ⟨m, hm⟩ : ∃ m, 4 - k = m + 1 := ⟨4 - k - 1, by omega⟩
    rw [fetch_page, h, hm]
    have hc429 : ¬ c = 429 := by omega
    have hc404 : ¬ c = 404 := by omega
    have hcrange : ¬ (400 ≤ c ∧ c < 600) := by omega
    have hstep : fetchLoop f k (m + 1) = (some d, []) := by
      simp only [fetchLoop]
      rw [hfk]
      simp [hc429, hc404, hcrange]
    rw [hstep]
    simp

/-- C7 witness: the theorem applied at concrete attempt sequences,
discharging the retryability and status hypotheses there. -/
theorem C7_fetch_amended_witness :
    fetch_page f404 = (none, []) ∧ fetch_page fErr = (none, [2, 4, 8, 16]) ∧
    fetch_page fOk = (some emptyDoc, []) := by
  refine ⟨?_, ?_, ?_⟩
  · exact (C7_fetch_amended.2.1 f404 0 emptyDoc (by omega)
      (fun i hi => absurd hi (by omega)) rfl).trans (by decide)
  · exact C7_fetch_amended.1 fErr (fun i _ => by exact trivial)
  · exact (C7_fetch_amended.2.2 fOk 0 200 emptyDoc (by omega)
      (fun i hi => absurd hi (by omega)) rfl (Or.inl (by omega))).trans (by decide)

lemma filterNew_seen_sub :
    ∀ (urls seen : List String) (k : String), k ∈ seen → k ∈ (filterNew seen urls).1 := by
  intro urls
  induction urls with
  | nil => intro seen k h; simpa [filterNew] using h
  | cons u rest ih =>
    intro seen k h
    by_cases hu : dedupKey u ∈ seen
    · simpa [filterNew, hu] using ih seen k h
    · simpa [filterNew, hu] using ih (dedupKey u :: seen) k (List.mem_cons_of_mem _ h)

lemma filterNew_mem_seen :
    ∀ (urls seen : List String) (u : String), u ∈ urls → dedupKey u ∈ (filterNew seen urls).1 := by
  intro urls
  induction urls with
  | nil => intro seen u h; simp at h
  | cons v rest ih =>
    intro seen u h
    by_cases hv : dedupKey v ∈ seen
    · rcases List.mem_cons.mp h with h | h
      · subst h; simpa [filterNew, hv] using filterNew_seen_sub rest seen _ hv
      · simpa [filterNew, hv] using ih seen u h
    · rcases List.mem_cons.mp h with h | h
      · subst h
        simpa [filterNew, hv] using
          filterNew_seen_sub rest (dedupKey u :: seen) _ (List.mem_cons_self _ _)
      · simpa [filterNew, hv] using ih (dedupKey v :: seen) u h

lemma filterNew_new_fresh :
    ∀ (urls seen : List String) (u : String),
      u ∈ (filterNew seen urls).2 → dedupKey u ∉ seen := by
  intro urls
  induction urls with
  | nil => intro seen u h; simp [filterNew] at h
  | cons v rest ih =>
    intro seen u h
    by_cases hv : dedupKey v ∈ seen
    · exact ih seen u (by simpa [filterNew, hv] using h)
    · have h2 : u = v ∨ u ∈ (filterNew (dedupKey v :: seen) rest).2 := by
        simpa [filterNew, hv] using h
      rcases h2 with h2 | h2
      · subst h2; exact hv
      · intro hmem
        exact ih (dedupKey v :: seen) u h2 (List.mem_cons_of_mem _ hmem)

lemma filterNew_new_in_seen :
    ∀ (urls seen : List String) (u : String),
      u ∈ (filterNew seen urls).2 → dedupKey u ∈ (filterNew seen urls).1 := by
  intro urls
  induction urls with
  | nil => intro seen u h; simp [filterNew] at h
  | cons v rest ih =>
    intro seen u h
    by_cases hv : dedupKey v ∈ seen
    · exact (by simpa [filterNew, hv] using ih seen u (by simpa [filterNew, hv] using h))
    · have h2 : u = v ∨ u ∈ (filterNew (dedupKey v :: seen) rest).2 := by
        simpa [filterNew, hv] using h
      rcases h2 with h2 | h2
      · subst h2
        simpa [filterNew, hv] using
          filterNew_seen_sub rest (dedupKey u :: seen) _ (List.mem_cons_self _ _)
      · simpa [filterNew, hv] using ih (dedupKey v :: seen) u h2

lemma filterNew_new_nodup :
    ∀ (urls seen : List String), ((filterNew seen urls).2.map dedupKey).Nodup := by
  intro urls
  induction urls with
  | nil => intro seen; simp [filterNew]
  | cons v rest ih =>
    intro seen
    by_cases hv : dedupKey v ∈ seen
    · simpa [filterNew, hv] using ih seen
    · have hmap : (filterNew seen (v :: rest)).2.map dedupKey =
          dedupKey v :: (filterNew (dedupKey v :: seen) rest).2.map dedupKey := by
        simp [filterNew, hv]
      rw [hmap]
      refine List.nodup_cons.mpr ⟨?_, ih (dedupKey v :: seen)⟩
      intro hmem
      obtain ⟨u, hu, hueq⟩ := List.mem_map.mp hmem
      have := filterNew_new_fresh rest (dedupKey v :: seen) u hu
      rw [hueq] at this
      exact this (List.mem_cons_self _ _)

/-- C3 counterexample: a fetched document from which no fallback strategy can
extract a contact name — here a document with no content at all — still makes
`scrape_company` return a candidate record (with empty `first_name`), not
`Absent`. -/
theorem C3_absent_counterexample :
    (cnEr emptyDoc).1 = "" ∧
    scrape_company (some emptyDoc) "u" =
      some { first_name := "", last_name := "", company := "", email := "",
             title := "", employee_range := "", source_url := "u" } := by decide

/-- C3 as amended: `scrape_company` returns `Absent` only when the fetch
itself failed; for every fetched document whose extraction cascade yields no
contact name it returns a candidate record with empty first and last name,
which `_process_record` then rejects, so the page contributes nothing to the
result set; and the dedup filter marks the key of every URL of a listing page
as seen, so the page is not refetched. -/
theorem C3_absent_amended :
    (∀ (doc : Document) (url : String),
      scrape_company (some doc) url = some (extractRecord doc url)) ∧
    (∀ (doc : Document) (url : String), (cnEr doc).1 = "" →
      (extractRecord doc url).first_name = "" ∧ (extractRecord doc url).last_name = "" ∧
      processRecord (scrape_company (some doc) url) = none) ∧
    (∀ (seen urls : List String) (u : String), u ∈ urls →
      dedupKey u ∈ (filterNew seen urls).1) := by
  refine ⟨fun _ _ => rfl, ?_, fun seen urls u h => filterNew_mem_seen urls seen u h⟩
  intro doc url h
  have hfn : (extractRecord doc url).first_name = "" := by
    simp [extractRecord, h]
  have hln : (extractRecord doc url).last_name = "" := by
    simp [extractRecord, h]
  refine ⟨hfn, hln, ?_⟩
  show processRecord (some (extractRecord doc url)) = none
  simp [processRecord, hfn]

/-- C3 witness: the theorem applied at a concrete document and URL list,
discharging the empty-cascade and membership hypotheses there. -/
theorem C3_absent_amended_witness :
    processRecord (scrape_company (some emptyDoc) "u") = none ∧
    dedupKey "a" ∈ (filterNew [] ["a"]).1 := by
  constructor
  · exact (C3_absent_amended.2.1 emptyDoc "u" (by decide)).2.2
  · exact C3_absent_amended.2.2 [] ["a"] "a" (by decide)

lemma aggregate_results_mono (env : Env) (target : Nat) :
    ∀ (urls : List String) (results : List CleanRecord) (ts : Nat),
      ∃ l, (aggregate env target urls results ts).1 = results ++ l := by
  intro urls
  induction urls with
  | nil => intro results ts; exact ⟨[], by simp [aggregate]⟩
  | cons u rest ih =>
    intro results ts
    cases hw : env.detailOutcome u with
    | exn => simpa [aggregate, hw] using ih results (ts + 1)
    | fetched od =>
      cases hp : processRecord (scrape_company od u) with
      | none =>
        by_cases ht : target ≤ results.length
        · exact ⟨[], by simp [aggregate, hw, hp, ht]⟩
        · obtain ⟨l, hl⟩ := ih results (ts + 1)
          exact ⟨l, by simp [aggregate, hw, hp, ht, hl]⟩
      | some c =>
        by_cases ht : target ≤ results.length + 1
        · exact ⟨[c], by simp [aggregate, hw, hp, ht]⟩
        · obtain ⟨l, hl⟩ := ih (results ++ [c]) (ts + 1)
          exact ⟨[c] ++ l, by simp [aggregate, hw, hp, ht, hl]⟩

lemma innerLoop_invariant (env : Env) (target : Nat) (loc : String) :
    ∀ (fuel page ce : Nat) (st : LoopState),
      (∃ l, (innerLoop env target loc fuel page ce st).1.results = st.results ++ l) ∧
      (∀ k ∈ st.seen, k ∈ (innerLoop env target loc fuel page ce st).1.seen) ∧
      ((innerLoop env target loc fuel page ce st).2.2.map dedupKey).Nodup ∧
      (∀ u ∈ (innerLoop env target loc fuel page ce st).2.2, dedupKey u ∉ st.seen) ∧
      (∀ u ∈ (innerLoop env target loc fuel page ce st).2.2,
        dedupKey u ∈ (innerLoop env target loc fuel page ce st).1.seen) := by
  intro fuel
  induction fuel with
  | zero =>
    intro page ce st
    exact ⟨⟨[], by simp [innerLoop]⟩, by simp [innerLoop], by simp [innerLoop],
      by simp [innerLoop], by simp [innerLoop]⟩
  | succ n ih =>
    intro page ce st
    by_cases ht : target ≤ st.results.length
    · exact ⟨⟨[], by simp [innerLoop, ht]⟩, by simp [innerLoop, ht], by simp [innerLoop, ht],
        by simp [innerLoop, ht], by simp [innerLoop, ht]⟩
    · by_cases hu : get_listing_urls env loc page = []
      · by_cases hce : 2 ≤ ce + 1
        · exact ⟨⟨[], by simp [innerLoop, ht, hu, hce]⟩, by simp [innerLoop, ht, hu, hce],
            by simp [innerLoop, ht, hu, hce], by simp [innerLoop, ht, hu, hce],
            by simp [innerLoop, ht, hu, hce]⟩
        · have hrec := ih (page + 1) (ce + 1) st
          refine ⟨?_, ?_, ?_, ?_, ?_⟩
          · obtain ⟨l, hl⟩ := hrec.1
            exact ⟨l, by simpa [innerLoop, ht, hu, hce] using hl⟩
          · intro k hk
            simpa [innerLoop, ht, hu, hce] using hrec.2.1 k hk
          · simpa [innerLoop, ht, hu, hce] using hrec.2.2.1
          · intro u hmem
            exact hrec.2.2.2.1 u (by simpa [innerLoop, ht, hu, hce] using hmem)
          · intro u hmem
            simpa [innerLoop, ht, hu, hce] using
              hrec.2.2.2.2 u (by simpa [innerLoop, ht, hu, hce] using hmem)
      · rcases hfn : filterNew st.seen (get_listing_urls env loc page) with ⟨seen1, newUrls⟩
        rcases hag : aggregate env target newUrls st.results st.totalScraped with ⟨res1, ts1⟩
        have hr : innerLoop env target loc (n + 1) page ce st =
            ((innerLoop env target loc n (page + 1) 0 ⟨res1, seen1, ts1⟩).1,
             (loc, page) :: (innerLoop env target loc n (page + 1) 0 ⟨res1, seen1, ts1⟩).2.1,
             newUrls ++ (innerLoop env target loc n (page + 1) 0 ⟨res1, seen1, ts1⟩).2.2) := by
          simp [innerLoop, ht, hu, hfn, hag]
        have hfrN : ∀ u ∈ newUrls, dedupKey u ∉ st.seen := by
          have h := filterNew_new_fresh (get_listing_urls env loc page) st.seen
          rw [hfn] at h
          exact h
        have hinN : ∀ u ∈ newUrls, dedupKey u ∈ seen1 := by
          have h := filterNew_new_in_seen (get_listing_urls env loc page) st.seen
          rw [hfn] at h
          exact h
        have hndN : (newUrls.map dedupKey).Nodup := by
          have h := filterNew_new_nodup (get_listing_urls env loc page) st.seen
          rw [hfn] at h
          exact h
        have hsubN : ∀ k ∈ st.seen, k ∈ seen1 := by
          have h := filterNew_seen_sub (get_listing_urls env loc page) st.seen
          rw [hfn] at h
          exact h
        have hresN : ∃ l, res1 = st.results ++ l := by
          obtain ⟨l, hl⟩ := aggregate_results_mono env target newUrls st.results st.totalScraped
          rw [hag] at hl
          exact ⟨l, hl⟩
        obtain ⟨ihres, ihseen, ihnodup, ihfresh, ihin⟩ := ih (page + 1) 0 ⟨res1, seen1, ts1⟩
        rw [hr]
        refine ⟨?_, ?_, ?_, ?_, ?_⟩
        · obtain ⟨l0, hl0⟩ := hresN
          obtain ⟨l1, hl1⟩ := ihres
          refine ⟨l0 ++ l1, ?_⟩
          rw [hl1]
          show (⟨res1, seen1, ts1⟩ : LoopState).results ++ l1 = _
          rw [show (⟨res1, seen1, ts1⟩ : LoopState).results = res1 from rfl, hl0,
            List.append_assoc]
        · intro k hk
          exact ihseen k (hsubN k hk)
        · rw [List.map_append]
          refine List.Nodup.append hndN ihnodup ?_
          intro x hx1 hx2
          obtain ⟨u1, hu1, he1⟩ := List.mem_map.mp hx1
          obtain ⟨u2, hu2, he2⟩ := List.mem_map.mp hx2
          have hin := hinN u1 hu1
          have hfr := ihfresh u2 hu2
          rw [he1] at hin
          rw [he2] at hfr
          exact hfr hin
        · intro u hmem
          rcases List.mem_append.mp hmem with hmem | hmem
          · exact hfrN u hmem
          · intro hk
            exact ihfresh u hmem (hsubN _ hk)
        · intro u hmem
          rcases List.mem_append.mp hmem with hmem | hmem
          · exact ihseen _ (hinN u hmem)
          · exact ihin u hmem

lemma locLoop_invariant (env : Env) (target fuel : Nat) :
    ∀ (locs : List String) (page0 : Nat) (st : LoopState),
      (∃ l, (locLoop env target fuel locs page0 st).1.results = st.results ++ l) ∧
      (∀ k ∈ st.seen, k ∈ (locLoop env target fuel locs page0 st).1.seen) ∧
      ((locLoop env target fuel locs page0 st).2.2.map dedupKey).Nodup ∧
      (∀ u ∈ (locLoop env target fuel locs page0 st).2.2, dedupKey u ∉ st.seen) ∧
      (∀ u ∈ (locLoop env target fuel locs page0 st).2.2,
        dedupKey u ∈ (locLoop env target fuel locs page0 st).1.seen) := by
  intro locs
  induction locs with
  | nil =>
    intro page0 st
    exact ⟨⟨[], by simp [locLoop]⟩, by simp [locLoop], by simp [locLoop],
      by simp [locLoop], by simp [locLoop]⟩
  | cons loc rest ih =>
    intro page0 st
    obtain ⟨ires, iseen, indp, ifr, iin⟩ := innerLoop_invariant env target loc fuel page0 0 st
    by_cases ht : target ≤ (innerLoop env target loc fuel page0 0 st).1.results.length
    · refine ⟨?_, ?_, ?_, ?_, ?_⟩
      · obtain ⟨l, hl⟩ := ires
        exact ⟨l, by simpa [locLoop, ht] using hl⟩
      · intro k hk
        simpa [locLoop, ht] using iseen k hk
      · simpa [locLoop, ht] using indp
      · intro u hmem
        exact ifr u (by simpa [locLoop, ht] using hmem)
      · intro u hmem
        simpa [locLoop, ht] using iin u (by simpa [locLoop, ht] using hmem)
    · obtain ⟨jres, jseen, jndp, jfr, jin⟩ :=
        ih 1 (innerLoop env target loc fuel page0 0 st).1
      have hr : locLoop env target fuel (loc :: rest) page0 st =
          ((locLoop env target fuel rest 1 (innerLoop env target loc fuel page0 0 st).1).1,
           (innerLoop env target loc fuel page0 0 st).2.1 ++
             (locLoop env target fuel rest 1 (innerLoop env target loc fuel page0 0 st).1).2.1,
           (innerLoop env target loc fuel page0 0 st).2.2 ++
             (locLoop env target fuel rest 1 (innerLoop env target loc fuel page0 0 st).1).2.2) := by
        simp [locLoop, ht]
      rw [hr]
      refine ⟨?_, ?_, ?_, ?_, ?_⟩
      · obtain ⟨l0, hl0⟩ := ires
        obtain ⟨l1, hl1⟩ := jres
        exact ⟨l0 ++ l1, by rw [hl1, hl0, List.append_assoc]⟩
      · intro k hk
        exact jseen k (iseen k hk)
      · rw [List.map_append]
        refine List.Nodup.append indp jndp ?_
        intro x hx1 hx2
        obtain ⟨u1, hu1, he1⟩ := List.mem_map.mp hx1
        obtain ⟨u2, hu2, he2⟩ := List.mem_map.mp hx2
        have hin := iin u1 hu1
        have hfr := jfr u2 hu2
        rw [he1] at hin
        rw [he2] at hfr
        exact hfr hin
      · intro u hmem
        rcases List.mem_append.mp hmem with hmem | hmem
        · exact ifr u hmem
        · intro hk
          exact jfr u hmem (iseen _ hk)
      · intro u hmem
        rcases List.mem_append.mp hmem with hmem | hmem
        · exact jseen _ (iin u hmem)
        · exact jin u hmem

/-- C1: in every run of the crawl, fresh or resumed, and every environment of
listing pages (including repeated detail URLs across or within pages), each
dedup key — the URL segment after `/company/` — is submitted to the worker
pool, and hence handed to `scrape_company`, at most once; and once a key is
in the loaded `seen_companies` set, no URL with that key is ever submitted. -/
theorem C1_dedup_at_most_once (env : Env) (target : Nat) (resume : Option ResumeState)
    (fuel : Nat) :
    (((scrape env target resume fuel).2.2).map dedupKey).Nodup ∧
    (∀ rs, resume = some rs →
      ∀ u ∈ (scrape env target resume fuel).2.2, dedupKey u ∉ rs.seen_companies) := by
  cases resume with
  | none =>
    refine ⟨?_, ?_⟩
    · exact (locLoop_invariant env target fuel LOCATIONS 1 ⟨[], [], 0⟩).2.2.1
    · intro rs h
      exact absurd h (by simp)
  | some rs =>
    refine ⟨?_, ?_⟩
    · exact (locLoop_invariant env target fuel (LOCATIONS.drop rs.location_idx) rs.page
        ⟨rs.results, rs.seen_companies, 0⟩).2.2.1
    · intro rs2 h u hu
      cases h
      exact (locLoop_invariant env target fuel (LOCATIONS.drop rs.location_idx) rs.page
        ⟨rs.results, rs.seen_companies, 0⟩).2.2.2.1 u hu

/-- C1 witness: the theorem applied in a run that submits one concrete URL,
discharging the resume and membership hypotheses there. -/
theorem C1_dedup_at_most_once_witness :
    dedupKey "https://www.businesslist.ph/company/12/acme" ∉ (["zzz"] : List String) :=
  (C1_dedup_at_most_once envMalolos 5 (some rsMalolos) 1).2 rsMalolos rfl
    "https://www.businesslist.ph/company/12/acme" (by decide)

lemma innerLoop_head (env : Env) (target : Nat) (loc : String) (fuel page ce : Nat)
    (st : LoopState) (h : st.results.length < target) (hf : 1 ≤ fuel) :
    ∃ rest, (innerLoop env target loc fuel page ce st).2.1 = (loc, page) :: rest := by
  obtain ⟨n, rfl⟩ : ∃ n, fuel = n + 1 := ⟨fuel - 1, by omega⟩
  have ht : ¬ target ≤ st.results.length := by omega
  by_cases hu : get_listing_urls env loc page = []
  · by_cases hce : 2 ≤ ce + 1
    · exact ⟨[], by simp [innerLoop, ht, hu, hce]⟩
    · exact ⟨(innerLoop env target loc n (page + 1) (ce + 1) st).2.1,
        by simp [innerLoop, ht, hu, hce]⟩
  · rcases hfn : filterNew st.seen (get_listing_urls env loc page) with ⟨seen1, newUrls⟩
    rcases hag : aggregate env target newUrls st.results st.totalScraped with ⟨res1, ts1⟩
    exact ⟨(innerLoop env target loc n (page + 1) 0 ⟨res1, seen1, ts1⟩).2.1,
      by simp [innerLoop, ht, hu, hfn, hag]⟩

lemma locLoop_head (env : Env) (target fuel : Nat) (loc : String) (rest : List String)
    (page0 : Nat) (st : LoopState) (h : st.results.length < target) (hf : 1 ≤ fuel) :
    (locLoop env target fuel (loc :: rest) page0 st).2.1.head? = some (loc, page0) := by
  obtain ⟨t, hti⟩ := innerLoop_head env target loc fuel page0 0 st h hf
  by_cases ht : target ≤ (innerLoop env target loc fuel page0 0 st).1.results.length
  · rw [show locLoop env target fuel (loc :: rest) page0 st =
        innerLoop env target loc fuel page0 0 st from by simp [locLoop, ht]]
    rw [hti]
    rfl
  · have hr : (locLoop env target fuel (loc :: rest) page0 st).2.1 =
        (innerLoop env target loc fuel page0 0 st).2.1 ++
          (locLoop env target fuel rest 1 (innerLoop env target loc fuel page0 0 st).1).2.1 := by
      simp [locLoop, ht]
    rw [hr, hti]
    rfl

/-- C2: a resumed `scrape` loads `results`, `seen_companies` and the cursor
verbatim and continues listing from the stored location index and page rather
than restarting; every loaded record remains in the final result list (the
final results extend the loaded ones), and no URL whose key was already in
`seen_companies` is ever submitted for fetching; with no snapshot, resume
degrades to a fresh run identical to starting at location index 0, page 1
with empty results and seen set. -/
theorem C2_resume :
    (∀ (env : Env) (target fuel : Nat) (rs : ResumeState) (loc : String),
      rs.results.length < target → LOCATIONS.get? rs.location_idx = some loc → 1 ≤ fuel →
      (∃ l, (scrape env target (some rs) fuel).1.results = rs.results ++ l) ∧
      (scrape env target (some rs) fuel).2.1.head? = some (loc, rs.page) ∧
      (∀ u ∈ (scrape env target (some rs) fuel).2.2, dedupKey u ∉ rs.seen_companies)) ∧
    (∀ (env : Env) (target fuel : Nat),
      scrape env target none fuel = scrape env target (some ⟨[], [], 0, 1⟩) fuel) := by
  constructor
  · intro env target fuel rs loc hlen hget hfuel
    have hidx : rs.location_idx < LOCATIONS.length := by
      by_contra hx
      rw [List.get?_eq_none.mpr (by omega)] at hget
      exact Option.noConfusion hget
    have hdrop : LOCATIONS.drop rs.location_idx =
        loc :: LOCATIONS.drop (rs.location_idx + 1) := by
      rw [List.drop_eq_getElem_cons hidx]
      have : LOCATIONS[rs.location_idx] = loc := by
        have h2 := List.get?_eq_getElem? LOCATIONS rs.location_idx
        rw [hget, List.getElem?_eq_getElem hidx] at h2
        exact (Option.some.injEq _ _).mp h2.symm
      rw [this]
    refine ⟨?_, ?_, ?_⟩
    · exact (locLoop_invariant env target fuel (LOCATIONS.drop rs.location_idx) rs.page
        ⟨rs.results, rs.seen_companies, 0⟩).1
    · show (locLoop env target fuel (LOCATIONS.drop rs.location_idx) rs.page
        ⟨rs.results, rs.seen_companies, 0⟩).2.1.head? = some (loc, rs.page)
      rw [hdrop]
      exact locLoop_head env target fuel loc _ rs.page ⟨rs.results, rs.seen_companies, 0⟩
        hlen hfuel
    · exact (locLoop_invariant env target fuel (LOCATIONS.drop rs.location_idx) rs.page
        ⟨rs.results, rs.seen_companies, 0⟩).2.2.2.1
  · intro env target fuel
    rfl

/-- C2 witness: the theorem applied at a concrete environment and snapshot,
discharging the target, cursor-bounds and fuel hypotheses there. -/
theorem C2_resume_witness :
    (scrape envNone 5 (some rsSeenOther) 1).2.1.head? = some ("manila", 1) ∧
    scrape envNone 5 none 1 = scrape envNone 5 (some ⟨[], [], 0, 1⟩) 1 := by
  constructor
  · exact (C2_resume.1 envNone 5 1 rsSeenOther "manila" (by decide) (by decide)
      (by decide)).2.1
  · exact C2_resume.2 envNone 5 1

/-- C8 counterexample: with the key `12/acme` already seen, the first two
listing pages of `manila` yield zero new URLs (nothing is ever submitted),
yet the location is not abandoned after them: with more fuel the loop fetches
page 3 of the same location, because a page whose URLs are all already seen
resets the consecutive-empty counter instead of incrementing it. -/
theorem C8_zero_new_urls_counterexample :
    (innerLoop envAllSeen 5 "manila" 2 1 0 ⟨[], ["12/acme"], 0⟩).2.2 = [] ∧
    innerLoop envAllSeen 5 "manila" 3 1 0 ⟨[], ["12/acme"], 0⟩ =
      (⟨[], ["12/acme"], 0⟩, [("manila", 1), ("manila", 2), ("manila", 3)], []) := by decide

/-- C8 as amended: a location is abandoned exactly when two consecutive
listing pages yield zero URLs — an empty extracted URL list, not merely zero
new URLs — or when the target count has been reached: two consecutive empty
pages end the location after exactly those two page visits; a page with a
non-empty URL list (even if every URL is already seen) resets the
consecutive-empty counter; and a state that has reached the target ends the
location immediately with no further page visits. -/
theorem C8_location_exhaustion_amended :
    (∀ (env : Env) (target : Nat) (loc : String) (fuel page : Nat) (st : LoopState),
      st.results.length < target →
      get_listing_urls env loc page = [] → get_listing_urls env loc (page + 1) = [] →
      innerLoop env target loc (fuel + 2) page 0 st =
        (st, [(loc, page), (loc, page + 1)], [])) ∧
    (∀ (env : Env) (target : Nat) (loc : String) (fuel page ce : Nat) (st : LoopState),
      st.results.length < target → get_listing_urls env loc page ≠ [] →
      innerLoop env target loc (fuel + 1) page ce st =
        innerLoop env target loc (fuel + 1) page 0 st) ∧
    (∀ (env : Env) (target : Nat) (loc : String) (fuel page ce : Nat) (st : LoopState),
      target ≤ st.results.length →
      innerLoop env target loc fuel page ce st = (st, [], [])) := by
  refine ⟨?_, ?_, ?_⟩
  · intro env target loc fuel page st h h1 h2
    have ht : ¬ target ≤ st.results.length := by omega
    have hstep2 : innerLoop env target loc (fuel + 1) (page + 1) 1 st =
        (st, [(loc, page + 1)], []) := by
      simp [innerLoop, ht, h2]
    have hstep1 : innerLoop env target loc (fuel + 2) page 0 st =
        ((innerLoop env target loc (fuel + 1) (page + 1) 1 st).1,
         (loc, page) :: (innerLoop env target loc (fuel + 1) (page + 1) 1 st).2.1,
         (innerLoop env target loc (fuel + 1) (page + 1) 1 st).2.2) := by
      simp [innerLoop, ht, h1]
    rw [hstep1, hstep2]
  · intro env target loc fuel page ce st h hne
    have ht : ¬ target ≤ st.results.length := by omega
    rcases hfn : filterNew st.seen (get_listing_urls env loc page) with ⟨seen1, newUrls⟩
    rcases hag : aggregate env target newUrls st.results st.totalScraped with ⟨res1, ts1⟩
    simp [innerLoop, ht, hne, hfn, hag]
  · intro env target loc fuel page ce st h
    cases fuel with
    | zero => rfl
    | succ n => simp [innerLoop, h]

/-- C8 witness: the theorem applied at concrete environments, discharging the
emptiness, non-emptiness and target hypotheses there. -/
theorem C8_location_exhaustion_amended_witness :
    innerLoop envNone 5 "manila" 2 1 0 ⟨[], [], 0⟩ =
      (⟨[], [], 0⟩, [("manila", 1), ("manila", 2)], []) ∧
    innerLoop envAllSeen 5 "manila" 1 1 7 ⟨[], ["12/acme"], 0⟩ =
      innerLoop envAllSeen 5 "manila" 1 1 0 ⟨[], ["12/acme"], 0⟩ ∧
    innerLoop envNone 0 "manila" 9 1 0 ⟨[], [], 0⟩ = (⟨[], [], 0⟩, [], []) := by
  refine ⟨?_, ?_, ?_⟩
  · exact C8_location_exhaustion_amended.1 envNone 5 "manila" 0 1 ⟨[], [], 0⟩
      (by decide) (by decide) (by decide)
  · exact C8_location_exhaustion_amended.2.1 envAllSeen 5 "manila" 0 1 7
      ⟨[], ["12/acme"], 0⟩ (by decide) (by decide)
  · exact C8_location_exhaustion_amended.2.2 envNone 0 "manila" 9 1 0 ⟨[], [], 0⟩
      (by decide)

end PhScraper
